import Mathlib

/-!
Verification of the diagnostic-parsing module `plugin/completion/compiler_variant.py`.

The module applies compiled Python regular expressions to compiler output and
collects the named capture groups of every match into a dictionary.  We embed
the exact regular-expression fragment the module uses (literals, the
single-character classes `.`, `\d`, `\s` and a fixed character, greedy `*` and
`+`, and greedy named groups over a class) together with Python's backtracking
`re.search` semantics: leftmost starting position, greedy quantifiers trying
the longest extent first, full backtracking.
-/

set_option autoImplicit false

/-- Single-character classes occurring in the module's regular expressions. -/
inductive CClass where
  | chr : Char → CClass
  | dot : CClass
  | digit : CClass
  | wspace : CClass
deriving DecidableEq

/-- Python semantics of a single-character class: `.` matches anything except
a newline, `\d` a decimal digit, `\s` a whitespace character. -/
def CClass.matches : CClass → Char → Bool
  | .chr c, x => x == c
  | .dot, x => x != '\n'
  | .digit, x => x.isDigit
  | .wspace, x => x.isWhitespace

/-- Abstract syntax of the regular-expression fragment used by the module:
literal strings, a single-character class, greedy star over a class, greedy
named groups `(?P<n>C*)` and `(?P<n>C+)`, and concatenation. -/
inductive RE where
  | lit : List Char → RE
  | cls : CClass → RE
  | star : CClass → RE
  | groupStar : String → CClass → RE
  | groupPlus : String → CClass → RE
  | seq : RE → RE → RE

/-- Concatenation of a list of regular expressions. -/
def RE.cat : List RE → RE
  | [] => .lit []
  | [r] => r
  | r :: rs => .seq r (RE.cat rs)

/-- Capture dictionary: named groups with the text they matched, in group
order (this is what Python's `groupdict()` returns for the patterns at hand,
where every group participates in every successful match). -/
abbrev Caps := List (String × String)

/-- Parsed error record, as produced by `groupdict()`: an association list
with the captured fields. -/
abbrev ErrorRec := List (String × String)

/-- Length of the maximal run of characters of class `c` at the head of `s`. -/
def countRun (c : CClass) : List Char → Nat
  | [] => 0
  | x :: xs => if c.matches x then countRun c xs + 1 else 0

/-- The list `[n, n-1, ..., 1, 0]`: candidate extents of a greedy quantifier,
longest first. -/
def descRange : Nat → List Nat
  | 0 => [0]
  | n + 1 => (n + 1) :: descRange n

/-- Candidate splits for a greedy `C*`: `(consumed, rest)` pairs in the order
a backtracking engine tries them (longest consumed first, down to empty). -/
def starSplits (c : CClass) (s : List Char) : List (List Char × List Char) :=
  (descRange (countRun c s)).map (fun k => (s.take k, s.drop k))

/-- Candidate splits for a greedy `C+`: like `starSplits` but the consumed
part must be nonempty. -/
def plusSplits (c : CClass) (s : List Char) : List (List Char × List Char) :=
  ((descRange (countRun c s)).filter (fun k => 0 < k)).map (fun k => (s.take k, s.drop k))

/-- First success of `f` over a list of candidates, in order. -/
def firstSome {α β : Type} (f : α → Option β) : List α → Option β
  | [] => none
  | x :: xs =>
    match f x with
    | some r => some r
    | none => firstSome f xs

/-- Consume a literal at the head of the input: `dropLit l s` returns the
rest of `s` after an initial segment equal to `l`, and `none` when `s` does
not start with `l`. -/
def dropLit : List Char → List Char → Option (List Char)
  | [], s => some s
  | _ :: _, [] => none
  | x :: l, y :: s => if x == y then dropLit l s else none

/-- Backtracking matcher in continuation-passing style.  `run re s caps k`
tries to match `re` against an initial segment of `s`, extending the capture
dictionary `caps`, and calls the continuation `k` with the remaining input
and the extended captures; candidate extents of greedy quantifiers are tried
longest first, exactly as Python's `re` engine does for these patterns. -/
def run : RE → List Char → Caps → (List Char → Caps → Option Caps) → Option Caps
  | .lit l, s, caps, k =>
    match dropLit l s with
    | some rest => k rest caps
    | none => none
  | .cls c, s, caps, k =>
    match s with
    | [] => none
    | x :: xs => if c.matches x then k xs caps else none
  | .star c, s, caps, k => firstSome (fun p => k p.2 caps) (starSplits c s)
  | .groupStar n c, s, caps, k =>
    firstSome (fun p => k p.2 (caps ++ [(n, String.mk p.1)])) (starSplits c s)
  | .groupPlus n c, s, caps, k =>
    firstSome (fun p => k p.2 (caps ++ [(n, String.mk p.1)])) (plusSplits c s)
  | .seq a b, s, caps, k => run a s caps (fun rest caps2 => run b rest caps2 k)

/-- Python's `re.search`: try to match at position 0, then at position 1, and
so on; return the captures of the first (leftmost) match, or `none`. -/
def reSearch (re : RE) : List Char → Option Caps
  | [] => run re [] [] (fun _ caps => some caps)
  | s@(_ :: xs) =>
    match run re s [] (fun _ caps => some caps) with
    | some caps => some caps
    | none => reSearch re xs

/-- Line-boundary characters recognised by Python's `str.splitlines`. -/
def isLineBreak (c : Char) : Bool :=
  c == '\n' || c == '\r' || c == Char.ofNat 0x0b || c == Char.ofNat 0x0c ||
  c == Char.ofNat 0x1c || c == Char.ofNat 0x1d || c == Char.ofNat 0x1e ||
  c == Char.ofNat 0x85 || c == Char.ofNat 0x2028 || c == Char.ofNat 0x2029

/-- Worker for `splitlines`, accumulating the current line in reverse. -/
def splitLinesAux : List Char → List Char → List (List Char)
  | [], acc => if acc.isEmpty then [] else [acc.reverse]
  | '\r' :: '\n' :: rest, acc => acc.reverse :: splitLinesAux rest []
  | c :: rest, acc =>
    if isLineBreak c then acc.reverse :: splitLinesAux rest []
    else splitLinesAux rest (c :: acc)

/-- Python's `str.splitlines()`: split at line boundaries (`\r\n` counts as a
single boundary), without keeping the boundaries and without a trailing empty
line. -/
def splitlines (s : String) : List String :=
  (splitLinesAux s.data []).map String.mk

/-- The apostrophe character, used by libclang's rendering of source
locations. -/
def apos : Char := Char.ofNat 39

/-- Embeds `ClangCompilerVariant.init_flags`. -/
def ClangCompilerVariant.init_flags : List String := ["-c", "-fsyntax-only", "-x c++"]

/-- Embeds `ClangCompilerVariant.error_regex`, the compiled pattern
`(?P<file>.*):(?P<row>\d+):(?P<col>\d+):\s*.*error: (?P<error>.*)`. -/
def ClangCompilerVariant.error_regex : RE :=
  RE.cat [.groupStar ("file") .dot, .lit [':'], .groupPlus ("row") .digit, .lit [':'],
          .groupPlus ("col") .digit, .lit [':'], .star .wspace, .star .dot,
          .lit ("error: ".data), .groupStar ("error") .dot]

/-- Body of `ClangCompilerVariant.errors_from_output`, parameterised by the
`error_regex` attribute looked up through `self` (so that the `ClangCl`
subclass inherits the algorithm unchanged while overriding the pattern):
split the output into lines, search each line with the pattern, keep the
`groupdict()` of every line that matches. -/
def ClangCompilerVariant.errors_from_output_with (regex : RE) (output : String) :
    List ErrorRec :=
  (splitlines output).filterMap (fun line => reSearch regex line.data)

/-- Embeds `ClangCompilerVariant.errors_from_output`. -/
def ClangCompilerVariant.errors_from_output (output : String) : List ErrorRec :=
  ClangCompilerVariant.errors_from_output_with ClangCompilerVariant.error_regex output

/-- Embeds `ClangClCompilerVariant.init_flags`. -/
def ClangClCompilerVariant.init_flags : List String := ["-c", "-fsyntax-only"]

/-- Embeds `ClangClCompilerVariant.error_regex`, the compiled pattern
`(?P<file>.*)\((?P<row>\d+),(?P<col>\d+)\)\s*:\s*.*error: (?P<error>.*)`. -/
def ClangClCompilerVariant.error_regex : RE :=
  RE.cat [.groupStar ("file") .dot, .lit ['('], .groupPlus ("row") .digit, .lit [','],
          .groupPlus ("col") .digit, .lit [')'], .star .wspace, .lit [':'], .star .wspace,
          .star .dot, .lit ("error: ".data), .groupStar ("error") .dot]

/-- Embeds `ClangClCompilerVariant.errors_from_output`, inherited from
`ClangCompilerVariant` with the overridden `error_regex`. -/
def ClangClCompilerVariant.errors_from_output (output : String) : List ErrorRec :=
  ClangCompilerVariant.errors_from_output_with ClangClCompilerVariant.error_regex output

/-- A libclang diagnostic record, as consumed by
`LibClangCompilerVariant.errors_from_output`: the `str()` renderings of its
`location` and `spelling` attributes. -/
structure Diagnostic where
  location : String
  spelling : String
deriving DecidableEq

/-- Embeds `LibClangCompilerVariant.pos_regex`: the compiled pattern that
captures a file group `(?P<file>.+)` between two apostrophes, then matches
`.*line\s(?P<row>\d+), column\s(?P<col>\d+)`. -/
def LibClangCompilerVariant.pos_regex : RE :=
  RE.cat [.lit [apos], .groupPlus ("file") .dot, .lit [apos], .star .dot,
          .lit ("line".data), .cls .wspace, .groupPlus ("row") .digit,
          .lit (", column".data), .cls .wspace, .groupPlus ("col") .digit]

/-- Embeds `LibClangCompilerVariant.msg_regex`, the compiled pattern
`\"*(?P<error>.+)\"*`. -/
def LibClangCompilerVariant.msg_regex : RE :=
  RE.cat [.star (.chr '"'), .groupPlus ("error") .dot, .star (.chr '"')]

/-- Python's `dict.update`: entries of `d` whose key also occurs in `u` are
overwritten in place, and keys of `u` not present in `d` are appended in
order. -/
def dictUpdate (d u : List (String × String)) : List (String × String) :=
  (d.map (fun p => match u.lookup p.1 with | some v => (p.1, v) | none => p)) ++
  u.filter (fun p => (d.lookup p.1).isNone)

/-- Per-record body of `LibClangCompilerVariant.errors_from_output`: search
the rendered location with `pos_regex` and the rendered spelling with
`msg_regex`; if either search fails the record is dropped (the failure is
only logged), otherwise the two capture dictionaries are merged with
`dict.update`. -/
def LibClangCompilerVariant.parseDiag (diag : Diagnostic) : Option ErrorRec :=
  match reSearch LibClangCompilerVariant.pos_regex diag.location.data,
        reSearch LibClangCompilerVariant.msg_regex diag.spelling.data with
  | some posCaps, some msgCaps => some (dictUpdate posCaps msgCaps)
  | _, _ => none

/-- Embeds `LibClangCompilerVariant.errors_from_output`. -/
def LibClangCompilerVariant.errors_from_output (output : List Diagnostic) :
    List ErrorRec :=
  output.filterMap LibClangCompilerVariant.parseDiag

/-- The compiler variants offered by the module. -/
inductive Variant where
  | base
  | clang
  | clangCl
  | libClang
deriving DecidableEq

/-- Input supplied to `errors_from_output`: a text blob for the text-mode
variants, a sequence of diagnostic records for the libclang variant. -/
inductive ParserInput where
  | text : String → ParserInput
  | diags : List Diagnostic → ParserInput

/-- Exceptions a call to `errors_from_output` can raise under Python
semantics. -/
inductive PyError where
  | notImplementedError : String → PyError
  | attributeError : String → PyError
deriving DecidableEq

/-- Whether an input has the type a variant expects (a text blob for the
Clang family, a record sequence for libclang; the abstract base declares its
input opaque). -/
def expectedInput : Variant → ParserInput → Bool
  | .base, _ => true
  | .clang, .text _ => true
  | .clangCl, .text _ => true
  | .libClang, .diags _ => true
  | _, _ => false

/-- Dispatching `errors_from_output` through the class hierarchy, with
Python's dynamic semantics made explicit: the abstract base raises
`NotImplementedError("calling abstract method")`; a concrete variant applied
to an input of the wrong type fails with an `AttributeError` when it reaches
the first attribute the input lacks; otherwise the variant's parse runs and
returns its list. -/
def CompilerVariant.errors_from_output : Variant → ParserInput → Except PyError (List ErrorRec)
  | .base, _ => .error (.notImplementedError ("calling abstract method"))
  | .clang, .text s => .ok (ClangCompilerVariant.errors_from_output s)
  | .clang, .diags _ => .error (.attributeError ("splitlines"))
  | .clangCl, .text s => .ok (ClangClCompilerVariant.errors_from_output s)
  | .clangCl, .diags _ => .error (.attributeError ("splitlines"))
  | .libClang, .diags ds => .ok (LibClangCompilerVariant.errors_from_output ds)
  | .libClang, .text _ => .error (.attributeError ("location"))

/-! Inversion lemmas for the matcher: a successful `run` splits the input,
extends the captures by one binding per named group (in group order, each
binding satisfying its group's class), and passes every literal of the
pattern as a contiguous part of the consumed input. -/

/-- Named groups of a pattern in order, with their class and whether they are
`+` (must capture a nonempty string). -/
def groupSpecs : RE → List (String × CClass × Bool)
  | .lit _ => []
  | .cls _ => []
  | .star _ => []
  | .groupStar n c => [(n, c, false)]
  | .groupPlus n c => [(n, c, true)]
  | .seq a b => groupSpecs a ++ groupSpecs b

/-- Literal strings of a pattern (every one of them lies on the unique path
of the pattern, which has no alternation). -/
def litsOf : RE → List (List Char)
  | .lit l => [l]
  | .cls _ => []
  | .star _ => []
  | .groupStar _ _ => []
  | .groupPlus _ _ => []
  | .seq a b => litsOf a ++ litsOf b

/-- A capture entry is sound for a group specification: same name, text drawn
from the group's class, nonempty if the group is a `+` group. -/
def Binds (spec : String × CClass × Bool) (p : String × String) : Prop :=
  p.1 = spec.1 ∧ p.2.data.all spec.2.1.matches = true ∧ (spec.2.2 = true → p.2 ≠ "")

/-- The apostrophe as a one-character string (spelled via its code point so
that input samples containing quotes can be written without quote literals). -/
def aposStr : String := String.singleton apos

/-- The message text `expected ';'` of the specification's Clang sample. -/
def errMsgSemi : String := "expected " ++ aposStr ++ ";" ++ aposStr

/-- The specification's Clang sample line `foo.cpp:12:5: error: expected ';'`. -/
def c5Line : String := "foo.cpp:12:5: error: " ++ errMsgSemi

/-- The libclang sample location of the specification: `foo.cpp` between two
apostrophes, then `, line 7, column 3`. -/
def c2Location : String := aposStr ++ "foo.cpp" ++ aposStr ++ ", line 7, column 3"

/-- Shape invariant of every produced error record: exactly the four keys
`file`, `row`, `col`, `error` in this order, and the row and column texts are
nonempty strings of decimal digits. -/
def RecShape (r : ErrorRec) : Prop :=
  ∃ fileText rowText colText errText,
    r = [("file", fileText), ("row", rowText), ("col", colText), ("error", errText)] ∧
    rowText ≠ "" ∧ (∀ ch ∈ rowText.data, ch.isDigit = true) ∧
    colText ≠ "" ∧ (∀ ch ∈ colText.data, ch.isDigit = true)

theorem dropLit_eq_some : ∀ (l s rest : List Char), dropLit l s = some rest → s = l ++ rest
  | [], s, rest, h => by
    simp only [dropLit, Option.some.injEq] at h
    simp [h]
  | _ :: _, [], rest, h => by simp [dropLit] at h
  | x :: l, y :: s, rest, h => by
    rw [dropLit] at h
    split at h
    · next heq =>
      have hx : x = y := by simpa using heq
      subst hx
      have hrec := dropLit_eq_some l s rest h
      simp [hrec]
    · exact absurd h (by simp)

theorem firstSome_eq_some {α β : Type} {f : α → Option β} {xs : List α} {r : β}
    (h : firstSome f xs = some r) : ∃ x ∈ xs, f x = some r := by
  induction xs with
  | nil => simp [firstSome] at h
  | cons x xs ih =>
    rw [firstSome] at h
    cases hx : f x with
    | some v => rw [hx] at h; exact ⟨x, List.mem_cons_self x xs, by rw [hx]; exact h⟩
    | none =>
      rw [hx] at h
      obtain ⟨y, hy, hfy⟩ := ih h
      exact ⟨y, List.mem_cons_of_mem x hy, hfy⟩

theorem mem_descRange {k n : Nat} : k ∈ descRange n ↔ k ≤ n := by
  induction n with
  | zero => simp [descRange, Nat.le_zero]
  | succ n ih =>
    rw [descRange]
    simp only [List.mem_cons, ih]
    omega

theorem countRun_le_length (c : CClass) : ∀ s : List Char, countRun c s ≤ s.length
  | [] => Nat.le_refl 0
  | x :: xs => by
    rw [countRun]
    split
    · exact Nat.succ_le_succ (countRun_le_length c xs)
    · exact Nat.zero_le _

theorem take_all_of_le_countRun (c : CClass) :
    ∀ (s : List Char) (k : Nat), k ≤ countRun c s → (s.take k).all c.matches = true
  | _, 0, _ => by simp
  | [], k + 1, h => by rw [countRun] at h; omega
  | x :: xs, k + 1, h => by
    rw [countRun] at h
    split at h
    · next hm =>
      simp only [List.take_succ_cons, List.all_cons, hm, Bool.true_and]
      exact take_all_of_le_countRun c xs k (Nat.le_of_succ_le_succ h)
    · omega

theorem mem_starSplits {c : CClass} {s : List Char} {p : List Char × List Char}
    (h : p ∈ starSplits c s) : p.1 ++ p.2 = s ∧ p.1.all c.matches = true := by
  simp only [starSplits, List.mem_map] at h
  obtain ⟨k, hk, rfl⟩ := h
  rw [mem_descRange] at hk
  exact ⟨List.take_append_drop k s, take_all_of_le_countRun c s k hk⟩

theorem mem_plusSplits {c : CClass} {s : List Char} {p : List Char × List Char}
    (h : p ∈ plusSplits c s) :
    p.1 ++ p.2 = s ∧ p.1.all c.matches = true ∧ p.1 ≠ [] := by
  simp only [plusSplits, List.mem_map, List.mem_filter] at h
  obtain ⟨k, ⟨hk, hkpos⟩, rfl⟩ := h
  rw [mem_descRange] at hk
  have hkp : 0 < k := by simpa using hkpos
  refine ⟨List.take_append_drop k s, take_all_of_le_countRun c s k hk, ?_⟩
  have hlen : (s.take k).length = k := by
    rw [List.length_take]
    have := countRun_le_length c s
    omega
  intro hnil
  have hnil2 : List.take k s = [] := hnil
  rw [hnil2] at hlen
  simp at hlen
  omega

theorem run_inv (re : RE) : ∀ (s : List Char) (caps : Caps)
    (k : List Char → Caps → Option Caps) (r : Caps),
    run re s caps k = some r →
    ∃ consumed rest extra,
      s = consumed ++ rest ∧
      k rest (caps ++ extra) = some r ∧
      List.Forall₂ Binds (groupSpecs re) extra ∧
      ∀ l ∈ litsOf re, l <:+: consumed := by
  induction re with
  | lit l =>
    intro s caps k r h
    rw [run] at h
    cases hd : dropLit l s with
    | none => rw [hd] at h; exact absurd h (by simp)
    | some rest =>
      rw [hd] at h
      refine ⟨l, rest, [], dropLit_eq_some l s rest hd, by simpa using h,
        List.Forall₂.nil, ?_⟩
      intro m hm
      rw [litsOf, List.mem_singleton] at hm
      subst hm
      exact List.infix_refl m
  | cls c =>
    intro s caps k r h
    cases s with
    | nil => rw [run] at h; exact absurd h (by simp)
    | cons x xs =>
      rw [run] at h
      split at h
      · next hm =>
        exact ⟨[x], xs, [], rfl, by simpa using h, List.Forall₂.nil, by simp [litsOf]⟩
      · exact absurd h (by simp)
  | star c =>
    intro s caps k r h
    rw [run] at h
    obtain ⟨p, hp, hk⟩ := firstSome_eq_some h
    obtain ⟨hsplit, hall⟩ := mem_starSplits hp
    exact ⟨p.1, p.2, [], hsplit.symm, by simpa using hk, List.Forall₂.nil, by simp [litsOf]⟩
  | groupStar n c =>
    intro s caps k r h
    rw [run] at h
    obtain ⟨p, hp, hk⟩ := firstSome_eq_some h
    obtain ⟨hsplit, hall⟩ := mem_starSplits hp
    refine ⟨p.1, p.2, [(n, String.mk p.1)], hsplit.symm, hk, ?_, by simp [litsOf]⟩
    exact List.Forall₂.cons ⟨rfl, hall, fun hf => Bool.noConfusion hf⟩ List.Forall₂.nil
  | groupPlus n c =>
    intro s caps k r h
    rw [run] at h
    obtain ⟨p, hp, hk⟩ := firstSome_eq_some h
    obtain ⟨hsplit, hall, hne⟩ := mem_plusSplits hp
    refine ⟨p.1, p.2, [(n, String.mk p.1)], hsplit.symm, hk, ?_, by simp [litsOf]⟩
    refine List.Forall₂.cons ⟨rfl, hall, fun _ hEq => ?_⟩ List.Forall₂.nil
    exact hne (congrArg String.data hEq)
  | seq a b iha ihb =>
    intro s caps k r h
    rw [run] at h
    obtain ⟨c1, r1, e1, hs1, h1, hf1, hl1⟩ := iha s caps _ r h
    obtain ⟨c2, r2, e2, hs2, h2, hf2, hl2⟩ := ihb r1 (caps ++ e1) k r h1
    refine ⟨c1 ++ c2, r2, e1 ++ e2, ?_, ?_, ?_, ?_⟩
    · rw [hs1, hs2, List.append_assoc]
    · rw [List.append_assoc] at h2
      exact h2
    · exact List.rel_append hf1 hf2
    · intro l hl
      rw [litsOf] at hl
      rcases List.mem_append.mp hl with hmem | hmem
      · obtain ⟨u, v, huv⟩ := hl1 l hmem
        exact ⟨u, v ++ c2, by rw [← huv]; simp [List.append_assoc]⟩
      · obtain ⟨u, v, huv⟩ := hl2 l hmem
        exact ⟨c1 ++ u, v, by rw [← huv]; simp [List.append_assoc]⟩

theorem reSearch_inv (re : RE) : ∀ (s : List Char) (r : Caps), reSearch re s = some r →
    List.Forall₂ Binds (groupSpecs re) r ∧ ∀ l ∈ litsOf re, l <:+: s := by
  intro s
  induction s with
  | nil =>
    intro r h
    rw [reSearch] at h
    obtain ⟨consumed, rest, extra, hs, hk, hf, hl⟩ := run_inv re [] [] _ r h
    have hr : extra = r := by simpa using hk
    subst hr
    obtain ⟨hc, -⟩ := (List.append_eq_nil).mp hs.symm
    exact ⟨hf, by rw [← hc]; exact hl⟩
  | cons x xs ih =>
    intro r h
    rw [reSearch] at h
    cases hrun : run re (x :: xs) [] (fun _ caps => some caps) with
    | some caps =>
      rw [hrun] at h
      obtain ⟨consumed, rest, extra, hs, hk, hf, hl⟩ := run_inv re (x :: xs) [] _ caps hrun
      have hr : extra = r := by
        have h2 : caps = r := by injection h
        have h3 : extra = caps := by simpa using hk
        rw [h3, h2]
      subst hr
      refine ⟨hf, fun l hmem => ?_⟩
      obtain ⟨u, v, huv⟩ := hl l hmem
      exact ⟨u, v ++ rest, by rw [hs, ← huv]; simp [List.append_assoc]⟩
    | none =>
      rw [hrun] at h
      obtain ⟨hf, hl⟩ := ih r h
      refine ⟨hf, fun l hmem => ?_⟩
      obtain ⟨u, v, huv⟩ := hl l hmem
      exact ⟨x :: u, v, by rw [← huv]; rfl⟩

/-- Every successful search with a pattern whose groups are
`file(.*) row(\d+) col(\d+) error(.*)` produces a record of the invariant
shape. -/
theorem recShape_of_text_search (regex : RE)
    (hspec : groupSpecs regex =
      [("file", CClass.dot, false), ("row", CClass.digit, true),
       ("col", CClass.digit, true), ("error", CClass.dot, false)])
    {s : List Char} {r : Caps} (h : reSearch regex s = some r) : RecShape r := by
  obtain ⟨hf, -⟩ := reSearch_inv regex s r h
  rw [hspec] at hf
  rw [List.forall₂_cons_left_iff] at hf
  obtain ⟨p1, u1, hB1, hf, rfl⟩ := hf
  rw [List.forall₂_cons_left_iff] at hf
  obtain ⟨p2, u2, hB2, hf, rfl⟩ := hf
  rw [List.forall₂_cons_left_iff] at hf
  obtain ⟨p3, u3, hB3, hf, rfl⟩ := hf
  rw [List.forall₂_cons_left_iff] at hf
  obtain ⟨p4, u4, hB4, hf, rfl⟩ := hf
  rw [List.forall₂_nil_left_iff] at hf
  subst hf
  obtain ⟨n1, v1⟩ := p1
  obtain ⟨n2, v2⟩ := p2
  obtain ⟨n3, v3⟩ := p3
  obtain ⟨n4, v4⟩ := p4
  obtain ⟨hn1, ha1, hp1⟩ := hB1
  obtain ⟨hn2, ha2, hp2⟩ := hB2
  obtain ⟨hn3, ha3, hp3⟩ := hB3
  obtain ⟨hn4, ha4, hp4⟩ := hB4
  simp only at hn1 hn2 hn3 hn4 ha1 ha2 ha3 ha4 hp1 hp2 hp3 hp4
  subst hn1; subst hn2; subst hn3; subst hn4
  refine ⟨v1, v2, v3, v4, rfl, hp2 trivial, ?_, hp3 trivial, ?_⟩
  · intro ch hch
    simpa [CClass.matches] using List.all_eq_true.mp ha2 ch hch
  · intro ch hch
    simpa [CClass.matches] using List.all_eq_true.mp ha3 ch hch

/-- Every record the libclang variant keeps has the invariant shape: the
merged `groupdict` of a position match and a message match. -/
theorem recShape_of_parseDiag {d : Diagnostic} {r : ErrorRec}
    (h : LibClangCompilerVariant.parseDiag d = some r) : RecShape r := by
  rw [LibClangCompilerVariant.parseDiag] at h
  cases hp : reSearch LibClangCompilerVariant.pos_regex d.location.data with
  | none =>
    rw [hp] at h
    cases hq : reSearch LibClangCompilerVariant.msg_regex d.spelling.data <;>
      rw [hq] at h <;> exact absurd h (by simp)
  | some posCaps =>
    rw [hp] at h
    cases hq : reSearch LibClangCompilerVariant.msg_regex d.spelling.data with
    | none => rw [hq] at h; exact absurd h (by simp)
    | some msgCaps =>
      rw [hq] at h
      have hr : dictUpdate posCaps msgCaps = r := by injection h
      obtain ⟨hfp, -⟩ := reSearch_inv _ _ _ hp
      obtain ⟨hfm, -⟩ := reSearch_inv _ _ _ hq
      have hspecp : groupSpecs LibClangCompilerVariant.pos_regex =
          [("file", CClass.dot, true), ("row", CClass.digit, true),
           ("col", CClass.digit, true)] := rfl
      have hspecm : groupSpecs LibClangCompilerVariant.msg_regex =
          [("error", CClass.dot, true)] := rfl
      rw [hspecp] at hfp
      rw [hspecm] at hfm
      rw [List.forall₂_cons_left_iff] at hfp
      obtain ⟨p1, u1, hB1, hfp, rfl⟩ := hfp
      rw [List.forall₂_cons_left_iff] at hfp
      obtain ⟨p2, u2, hB2, hfp, rfl⟩ := hfp
      rw [List.forall₂_cons_left_iff] at hfp
      obtain ⟨p3, u3, hB3, hfp, rfl⟩ := hfp
      rw [List.forall₂_nil_left_iff] at hfp
      subst hfp
      rw [List.forall₂_cons_left_iff] at hfm
      obtain ⟨p4, u4, hB4, hfm, rfl⟩ := hfm
      rw [List.forall₂_nil_left_iff] at hfm
      subst hfm
      obtain ⟨n1, v1⟩ := p1
      obtain ⟨n2, v2⟩ := p2
      obtain ⟨n3, v3⟩ := p3
      obtain ⟨n4, v4⟩ := p4
      obtain ⟨hn1, ha1, hp1⟩ := hB1
      obtain ⟨hn2, ha2, hp2⟩ := hB2
      obtain ⟨hn3, ha3, hp3⟩ := hB3
      obtain ⟨hn4, ha4, hp4⟩ := hB4
      simp only at hn1 hn2 hn3 hn4 ha1 ha2 ha3 ha4 hp1 hp2 hp3 hp4
      subst hn1; subst hn2; subst hn3; subst hn4
      rw [← hr]
      refine ⟨v1, v2, v3, v4, rfl, hp2 trivial, ?_, hp3 trivial, ?_⟩
      · intro ch hch
        simpa [CClass.matches] using List.all_eq_true.mp ha2 ch hch
      · intro ch hch
        simpa [CClass.matches] using List.all_eq_true.mp ha3 ch hch

/-- A `filterMap` is the in-order image of the elements on which the function
succeeds: the output order mirrors the input order. -/
theorem filterMap_eq_map_filter {α β : Type} (f : α → Option β) (d : β) (l : List α) :
    l.filterMap f = (l.filter (fun x => (f x).isSome)).map (fun x => (f x).getD d) := by
  induction l with
  | nil => rfl
  | cons x xs ih =>
    cases hx : f x <;> simp [List.filterMap_cons, List.filter_cons, hx, ih]

/-- C1 (counterexample): on the line `a.cpp:1:2: b.cpp:3:4: error: msg` the
Clang variant does not capture `file="a.cpp"`, `row="1"`, `col="2"`: the
leading `(?P<file>.*)` group is greedy, so the file field is not cut at the
first `:row:col` triple of the line. -/
theorem claimC1_counterexample :
    ((ClangCompilerVariant.errors_from_output ("a.cpp:1:2: b.cpp:3:4: error: msg")).head?.bind
        (fun r => r.lookup ("file"))) ≠ some ("a.cpp") ∧
    ((ClangCompilerVariant.errors_from_output ("a.cpp:1:2: b.cpp:3:4: error: msg")).head?.bind
        (fun r => r.lookup ("row"))) ≠ some ("1") := by decide

/-- C1 (amended): the greedy `(?P<file>.*)` group extends the file field to
the last `:row:col` triple that still lets the remainder of the pattern
match, so for a line with two triples such as
`a.cpp:1:2: b.cpp:3:4: error: msg` the record is `file="a.cpp:1:2: b.cpp"`,
`row="3"`, `col="4"`, `error="msg"`. -/
theorem claimC1_amended :
    ClangCompilerVariant.errors_from_output ("a.cpp:1:2: b.cpp:3:4: error: msg") =
      [[("file", "a.cpp:1:2: b.cpp"), ("row", "3"), ("col", "4"), ("error", "msg")]] := by decide

/-- C2 (counterexample): for a spelling rendered with one pair of surrounding
double quotes the libclang variant does not strip the trailing quote: the
error field is not the inner text `expected expression`. -/
theorem claimC2_counterexample :
    ((LibClangCompilerVariant.errors_from_output
          [⟨c2Location, "\"expected expression\""⟩]).head?.bind
        (fun r => r.lookup ("error"))) ≠ some ("expected expression") := by decide

/-- C2 (amended): the greedy `(?P<error>.+)` of `msg_regex` consumes up to
the end of the spelling and the trailing `\"*` matches empty, so a quoted
spelling loses only its leading quote and keeps the trailing one, while an
unquoted spelling is passed through unchanged. -/
theorem claimC2_amended :
    LibClangCompilerVariant.errors_from_output [⟨c2Location, "\"expected expression\""⟩] =
      [[("file", "foo.cpp"), ("row", "7"), ("col", "3"), ("error", "expected expression\"")]] ∧
    LibClangCompilerVariant.errors_from_output [⟨c2Location, "expected expression"⟩] =
      [[("file", "foo.cpp"), ("row", "7"), ("col", "3"), ("error", "expected expression")]] := by
  exact ⟨by decide, by decide⟩

/-- C3: every concrete variant, applied to an input of its expected type,
returns a list (wrapped in `Except.ok`); it never raises, whatever the
content of the input. -/
theorem claimC3 (v : Variant) (inp : ParserInput) (hv : v ≠ Variant.base)
    (hi : expectedInput v inp = true) :
    ∃ l, CompilerVariant.errors_from_output v inp = Except.ok l := by
  cases v <;> cases inp <;>
    simp_all [expectedInput, CompilerVariant.errors_from_output]

/-- Witness for C3 at a concrete malformed input. -/
theorem claimC3_witness :
    Variant.clang ≠ Variant.base ∧
    expectedInput Variant.clang (ParserInput.text ("garbage without diagnostics")) = true ∧
    ∃ l, CompilerVariant.errors_from_output Variant.clang
        (ParserInput.text ("garbage without diagnostics")) = Except.ok l :=
  ⟨by decide, rfl,
    claimC3 Variant.clang (ParserInput.text ("garbage without diagnostics")) (by decide) rfl⟩

/-- C4: a libclang record whose rendered location fails `pos_regex` or whose
rendered spelling fails `msg_regex` contributes nothing to the output: the
result over any input containing it equals the result with the record
removed (no exception, no partial or placeholder record). -/
theorem claimC4 (pre suf : List Diagnostic) (d : Diagnostic)
    (h : reSearch LibClangCompilerVariant.pos_regex d.location.data = none ∨
         reSearch LibClangCompilerVariant.msg_regex d.spelling.data = none) :
    LibClangCompilerVariant.errors_from_output (pre ++ d :: suf) =
      LibClangCompilerVariant.errors_from_output (pre ++ suf) := by
  have hd : LibClangCompilerVariant.parseDiag d = none := by
    rw [LibClangCompilerVariant.parseDiag]
    rcases h with h | h
    · rw [h]
    · rw [h]
      cases reSearch LibClangCompilerVariant.pos_regex d.location.data <;> rfl
  simp only [LibClangCompilerVariant.errors_from_output, List.filterMap_append,
    List.filterMap_cons, hd]

/-- Witness for C4 at a concrete record whose location lacks the
`line`/`column` shape. -/
theorem claimC4_witness :
    (reSearch LibClangCompilerVariant.pos_regex ("no position here" : String).data = none ∨
     reSearch LibClangCompilerVariant.msg_regex ("msg" : String).data = none) ∧
    LibClangCompilerVariant.errors_from_output
        ([] ++ (⟨"no position here", "msg"⟩ : Diagnostic) :: []) =
      LibClangCompilerVariant.errors_from_output ([] ++ []) :=
  ⟨Or.inl (by decide), claimC4 [] [] ⟨"no position here", "msg"⟩ (Or.inl (by decide))⟩

/-- C5: the Clang variant parses `foo.cpp:12:5: error: expected ';'` into
exactly one record with the expected four fields, and a line that does not
even contain the substring `error:` can never match `error_regex`, hence
yields no record. -/
theorem claimC5 :
    (ClangCompilerVariant.errors_from_output c5Line =
      [[("file", "foo.cpp"), ("row", "12"), ("col", "5"), ("error", errMsgSemi)]]) ∧
    ∀ (output line : String), line ∈ splitlines output →
      ¬ ("error:".data <:+: line.data) →
      reSearch ClangCompilerVariant.error_regex line.data = none := by
  refine ⟨by decide, ?_⟩
  intro output line hmem hni
  cases hs : reSearch ClangCompilerVariant.error_regex line.data with
  | none => rfl
  | some r =>
    exfalso
    obtain ⟨-, hl⟩ := reSearch_inv _ _ _ hs
    have hlit : ("error: ".data) ∈ litsOf ClangCompilerVariant.error_regex := by decide
    obtain ⟨u, v, huv⟩ := hl _ hlit
    apply hni
    refine ⟨u, ' ' :: v, ?_⟩
    have he : ("error: ".data : List Char) = "error:".data ++ [' '] := rfl
    rw [he] at huv
    rw [← huv]
    simp

/-- Witness for C5's universal part at a concrete warning line. -/
theorem claimC5_witness :
    ("sample.cpp:1:2: warning: unused" ∈ splitlines ("sample.cpp:1:2: warning: unused")) ∧
    ¬ ("error:".data <:+: ("sample.cpp:1:2: warning: unused" : String).data) ∧
    reSearch ClangCompilerVariant.error_regex
      ("sample.cpp:1:2: warning: unused" : String).data = none :=
  ⟨by decide, by decide,
    claimC5.2 ("sample.cpp:1:2: warning: unused") ("sample.cpp:1:2: warning: unused")
      (by decide) (by decide)⟩

/-- C6: the ClangCl variant matches the parenthesized `<file>(<row>,<col>):`
shape, giving `row="12"`, `col="5"` on the sample line, and its
`errors_from_output` is the Clang algorithm applied verbatim to the
overridden pattern. -/
theorem claimC6 :
    ClangClCompilerVariant.errors_from_output ("foo.cpp(12,5): error: missing return") =
      [[("file", "foo.cpp"), ("row", "12"), ("col", "5"), ("error", "missing return")]] ∧
    ClangClCompilerVariant.errors_from_output =
      ClangCompilerVariant.errors_from_output_with ClangClCompilerVariant.error_regex := by
  exact ⟨by decide, rfl⟩

/-- C7: `init_flags` of ClangCl lacks `-x c++`, Clang's has it, and both
contain `-c` and `-fsyntax-only`. -/
theorem claimC7 :
    "-x c++" ∉ ClangClCompilerVariant.init_flags ∧
    "-x c++" ∈ ClangCompilerVariant.init_flags ∧
    "-c" ∈ ClangCompilerVariant.init_flags ∧
    "-fsyntax-only" ∈ ClangCompilerVariant.init_flags ∧
    "-c" ∈ ClangClCompilerVariant.init_flags ∧
    "-fsyntax-only" ∈ ClangClCompilerVariant.init_flags := by decide

/-- C8: for every concrete variant the output is the in-order image of the
matching lines (resp. matching diagnostic records) of the input, so the
relative order of the produced records mirrors the input order. -/
theorem claimC8 :
    (∀ out : String, ClangCompilerVariant.errors_from_output out =
      ((splitlines out).filter
          (fun line => (reSearch ClangCompilerVariant.error_regex line.data).isSome)).map
        (fun line => (reSearch ClangCompilerVariant.error_regex line.data).getD [])) ∧
    (∀ out : String, ClangClCompilerVariant.errors_from_output out =
      ((splitlines out).filter
          (fun line => (reSearch ClangClCompilerVariant.error_regex line.data).isSome)).map
        (fun line => (reSearch ClangClCompilerVariant.error_regex line.data).getD [])) ∧
    (∀ ds : List Diagnostic, LibClangCompilerVariant.errors_from_output ds =
      (ds.filter (fun d => (LibClangCompilerVariant.parseDiag d).isSome)).map
        (fun d => (LibClangCompilerVariant.parseDiag d).getD [])) := by
  refine ⟨fun out => ?_, fun out => ?_, fun ds => ?_⟩
  · exact filterMap_eq_map_filter
      (fun line => reSearch ClangCompilerVariant.error_regex line.data) [] (splitlines out)
  · exact filterMap_eq_map_filter
      (fun line => reSearch ClangClCompilerVariant.error_regex line.data) [] (splitlines out)
  · exact filterMap_eq_map_filter LibClangCompilerVariant.parseDiag [] ds

/-- C9: every record any concrete variant returns has exactly the four keys
`file`, `row`, `col`, `error` (in this order), and its row and column values
are nonempty strings of decimal digits. -/
theorem claimC9 :
    (∀ (out : String) (r : ErrorRec),
      r ∈ ClangCompilerVariant.errors_from_output out → RecShape r) ∧
    (∀ (out : String) (r : ErrorRec),
      r ∈ ClangClCompilerVariant.errors_from_output out → RecShape r) ∧
    (∀ (ds : List Diagnostic) (r : ErrorRec),
      r ∈ LibClangCompilerVariant.errors_from_output ds → RecShape r) := by
  refine ⟨fun out r hmem => ?_, fun out r hmem => ?_, fun ds r hmem => ?_⟩
  · simp only [ClangCompilerVariant.errors_from_output,
      ClangCompilerVariant.errors_from_output_with, List.mem_filterMap] at hmem
    obtain ⟨line, -, hsr⟩ := hmem
    exact recShape_of_text_search ClangCompilerVariant.error_regex rfl hsr
  · simp only [ClangClCompilerVariant.errors_from_output,
      ClangCompilerVariant.errors_from_output_with, List.mem_filterMap] at hmem
    obtain ⟨line, -, hsr⟩ := hmem
    exact recShape_of_text_search ClangClCompilerVariant.error_regex rfl hsr
  · simp only [LibClangCompilerVariant.errors_from_output, List.mem_filterMap] at hmem
    obtain ⟨d, -, hpd⟩ := hmem
    exact recShape_of_parseDiag hpd

/-- Witness for C9 at the record parsed from the specification's Clang
sample line. -/
theorem claimC9_witness :
    ([("file", "foo.cpp"), ("row", "12"), ("col", "5"), ("error", errMsgSemi)] ∈
        ClangCompilerVariant.errors_from_output c5Line) ∧
    RecShape [("file", "foo.cpp"), ("row", "12"), ("col", "5"), ("error", errMsgSemi)] :=
  ⟨by decide, claimC9.1 c5Line _ (by decide)⟩

/-- C10: the abstract base class's `errors_from_output` raises
`NotImplementedError("calling abstract method")` on every input and never
returns a value. -/
theorem claimC10 :
    ∀ inp : ParserInput,
      CompilerVariant.errors_from_output Variant.base inp =
        Except.error (PyError.notImplementedError ("calling abstract method")) ∧
      ∀ l : List ErrorRec,
        CompilerVariant.errors_from_output Variant.base inp ≠ Except.ok l := by
  intro inp
  cases inp <;> exact ⟨rfl, fun l h => Except.noConfusion h⟩
